import Mathlib

/-!
Verification of the GCCA implementation in `gcca.py` (class `GCCA`).

The Python code is shallowly embedded here:

* numpy 2-D arrays become `Mat`: an explicit `rows × cols` size together with a
  total entry function `ℕ → ℕ → ℚ` (exact rationals idealize IEEE floats;
  entries outside the stated size are irrelevant junk, every operation only
  reads in-range entries of its operands);
* external numerical routines (`scipy.linalg.eig`, `np.sqrt`) are oracle
  parameters, constrained only by the documented contract that a theorem
  states as an explicit hypothesis;
* `np.linalg.matrix_rank` is embedded as exact Gaussian-elimination rank
  (`qrank`), the exact-arithmetic idealization of its SVD threshold rank;
* methods that mutate `self` return the updated `Model`; a Python `raise`
  becomes an `Except.error` carrying a `PyErr`, and a method that can raise
  returns the pair of the model state at the moment of the raise and the
  `Except` result;
* `h5py` persistence is embedded by an explicit `H5File` record holding the
  values the file would hold; an h5py `Dataset` handle that survives the
  closing `with` block (which is what `load_params` stores into `cov_mat`)
  is the constructor `CovEntry.closedH5` carrying the dataset key.
-/

namespace GCCA

/-- Sum of `f 0 + f 1 + ⋯ + f (n-1)`; executable counterpart of the
`Σ_{k<n}` sums hidden in `np.dot`, `np.cov` and `np.average`. -/
def sumTo : ℕ → (ℕ → ℚ) → ℚ
  | 0, _ => 0
  | n + 1, f => sumTo n f + f n

/-- A numpy 2-D float array: explicit size plus a total entry function. -/
structure Mat where
  rows : ℕ
  cols : ℕ
  entry : ℕ → ℕ → ℚ

/-- The all-zero 0×0 array, used as an out-of-range default. -/
def M0 : Mat := ⟨0, 0, fun _ _ => 0⟩

/-- `x.T` (numpy transpose). -/
def Mat.transpose (A : Mat) : Mat := ⟨A.cols, A.rows, fun i j => A.entry j i⟩

/-- `np.dot(A, B)` (matrix product, contraction over `A.cols`). -/
def Mat.mul (A B : Mat) : Mat :=
  ⟨A.rows, B.cols, fun i j => sumTo A.cols fun k => A.entry i k * B.entry k j⟩

/-- scalar multiple `c * A`. -/
def Mat.smul (c : ℚ) (A : Mat) : Mat := ⟨A.rows, A.cols, fun i j => c * A.entry i j⟩

/-- elementwise `A + B` (used only at equal shapes, as in the source). -/
def Mat.add (A B : Mat) : Mat := ⟨A.rows, A.cols, fun i j => A.entry i j + B.entry i j⟩

/-- `np.eye(n)`. -/
def eyeM (n : ℕ) : Mat := ⟨n, n, fun p q => if p = q then 1 else 0⟩

/-- `np.zeros_like(A)`. -/
def Mat.zerosLike (A : Mat) : Mat := ⟨A.rows, A.cols, fun _ _ => 0⟩

/-- `np.average(np.diag(A))`: `np.diag` reads the `min A.rows A.cols`
diagonal entries, `np.average` divides their sum by their count. -/
def avgDiag (A : Mat) : ℚ :=
  sumTo (min A.rows A.cols) (fun k => A.entry k k) / (min A.rows A.cols : ℚ)

/-- Row slice `A[a:b]` (numpy slicing clamps the stop index at `A.rows`). -/
def rowSlice (A : Mat) (a b : ℕ) : Mat :=
  ⟨min b A.rows - a, A.cols, fun p q => A.entry (a + p) q⟩

/-- Sub-block `A[a:b, c:d]` with numpy clamping semantics. -/
def sliceM (A : Mat) (a b c d : ℕ) : Mat :=
  ⟨min b A.rows - a, min d A.cols - c, fun p q => A.entry (a + p) (c + q)⟩

/-- `GCCA.normalize` (lines 152-156): subtract each column mean. -/
def normalize (mat : Mat) : Mat :=
  ⟨mat.rows, mat.cols, fun i j =>
    mat.entry i j - sumTo mat.rows (fun t => mat.entry t j) / (mat.rows : ℚ)⟩

/-- Exceptions the embedded methods can surface. -/
inductive PyErr where
  /-- `raise Exception(msg)` executed by gcca.py itself. -/
  | raised (msg : String)
  /-- a `ValueError` raised inside a numpy call. -/
  | numpyValueError (msg : String)
  /-- an `AttributeError` on a non-array argument. -/
  | attributeError (msg : String)
  /-- an error raised by the h5py layer. -/
  | h5Error (msg : String)
  deriving DecidableEq

/-- A value stored in the `cov_mat` grid of a model: a real ndarray, or the
closed h5py `Dataset` handle (identified by its key) that `load_params`
leaves behind. -/
inductive CovEntry where
  | arr (A : Mat)
  | closedH5 (key : String)

/-- The mutable state of a `GCCA` object (fields set in `__init__`,
lines 18-36, plus the extra attribute `eig_vals` that `load_params`
creates dynamically, kept as an `Option` that starts out absent). -/
structure Model where
  n_components : ℕ
  reg_param : ℚ
  data_num : ℕ
  cov_mat : List (List CovEntry)
  h_list : List Mat
  eigvals : List ℚ
  z_list : List Mat
  eig_vals_attr : Option (List ℚ)

/-- `GCCA.__init__(n_components, reg_param)` (lines 18-36). -/
def mkModel (n_components : ℕ) (reg_param : ℚ) : Model :=
  { n_components := n_components
    reg_param := reg_param
    data_num := 0
    cov_mat := [[]]
    h_list := []
    eigvals := []
    z_list := []
    eig_vals_attr := none }

/-- `np.vstack([x.T for x in x_list])` (line 64): the transposed data sets
stacked on top of each other.  The column count is taken from the first
block; `calc_cov_mat` only builds this after numpy has checked that all
blocks agree on it. -/
def stackT : List Mat → Mat
  | [] => M0
  | x :: rest =>
    let below := stackT rest
    ⟨x.cols + below.rows, x.rows, fun p t =>
      if p < x.cols then x.entry t p else below.entry (p - x.cols) t⟩

/-- `np.cov(z)` (line 65): rows of `z` are variables, columns are the `S`
observations; sample covariance divides by `S - 1`. -/
def covOf (z : Mat) : Mat :=
  let S := z.cols
  let rmean := fun p => sumTo S (z.entry p) / (S : ℚ)
  ⟨z.rows, z.rows, fun p q =>
    sumTo S (fun t => (z.entry p t - rmean p) * (z.entry q t - rmean q)) / ((S : ℚ) - 1)⟩

/-- Cumulative feature offsets `d_list` (lines 66 and 98):
`d_list[i]` = total feature count of the first `i` data sets
(`len(x.T)` = feature dimension). -/
def dOff (xl : List Mat) (i : ℕ) : ℕ := ((xl.take i).map Mat.cols).sum

/-- The `N×N` grid of covariance blocks cut out of `np.cov(z)`
(lines 67-72). -/
def covGrid (xl : List Mat) : List (List Mat) :=
  let c := covOf (stackT xl)
  (List.range xl.length).map fun i =>
    (List.range xl.length).map fun j =>
      sliceM c (dOff xl i) (dOff xl (i + 1)) (dOff xl j) (dOff xl (j + 1))

/-- `True` iff the stacked transposes agree on the sample count, which is
exactly the shape check `np.vstack` performs on a nonempty list. -/
def samplesAligned : List Mat → Bool
  | [] => false
  | x :: rest => rest.all fun y => y.rows == x.rows

/-- `GCCA.calc_cov_mat` (lines 59-74).  The method itself never validates;
the two error cases are the `ValueError`s numpy raises inside
`np.vstack`. -/
def calc_cov_mat (x_list : List Mat) : Except PyErr (List (List Mat)) :=
  match x_list with
  | [] => .error (.numpyValueError "need at least one array to concatenate")
  | x :: rest =>
    if rest.all (fun y => y.rows == x.rows) then .ok (covGrid (x :: rest))
    else .error (.numpyValueError
      "all the input array dimensions except for the concatenation axis must match exactly")

/-- Grid access `cov_mat[i][j]` (total, with a junk default). -/
def getG (g : List (List Mat)) (i j : ℕ) : Mat := (g.getD i []).getD j M0

/-- Line 83 for one diagonal block:
`block += reg_param * np.average(np.diag(block)) * np.eye(block.shape[0])`. -/
def regularizeBlock (reg : ℚ) (A : Mat) : Mat :=
  A.add (Mat.smul (reg * avgDiag A) (eyeM A.rows))

/-- `GCCA.add_regularization_term` (lines 76-85): perturb each diagonal
block in place, leave every other block alone. -/
def add_regularization_term (reg : ℚ) (g : List (List Mat)) : List (List Mat) :=
  (List.range g.length).map fun i =>
    (List.range (g.getD i []).length).map fun j =>
      if j = i then regularizeBlock reg (getG g i i) else getG g i j

/-- One Gaussian elimination step: clear column `c` of row `s` using the
pivot row `r` (whose entry in column `c` is nonzero). -/
def elimRow (r : List ℚ) (c : ℕ) (s : List ℚ) : List ℚ :=
  s.zipWith (fun a b => a - s.getD c 0 / r.getD c 0 * b) r

/-- Row rank of a list-of-rows matrix by Gaussian elimination. -/
def rankAux : List (List ℚ) → ℕ
  | [] => 0
  | r :: rs =>
    match r.findIdx? (fun x => x != 0) with
    | none => rankAux rs
    | some c => rankAux (rs.map (elimRow r c)) + 1
termination_by m => m.length
decreasing_by
  · simp [List.length_cons]
  · simp [List.length_cons, List.length_map]

/-- `np.linalg.matrix_rank` (line 41), idealized to the exact rank. -/
def qrank (A : Mat) : ℕ :=
  rankAux ((List.range A.rows).map fun i => (List.range A.cols).map fun j => A.entry i j)

/-- `eig_dim = min([matrix_rank(left), matrix_rank(right)])` (line 41). -/
def eig_dim (left right : Mat) : ℕ := min (qrank left) (qrank right)

/-- A complex scalar, as a pair (real part, imaginary part). -/
def Cx := ℚ × ℚ

/-- A complex 2-D array, as returned by `scipy.linalg.eig`. -/
structure CMat where
  rows : ℕ
  cols : ℕ
  entry : ℕ → ℕ → Cx

/-- `np.argsort` on complex data orders lexicographically by real part,
then imaginary part; reversing gives this descending order (line 47). -/
def cLexGe (x y : Cx) : Prop := y.1 < x.1 ∨ (x.1 = y.1 ∧ y.2 ≤ x.2)

instance : DecidableRel cLexGe := fun x y =>
  inferInstanceAs (Decidable (y.1 < x.1 ∨ (x.1 = y.1 ∧ y.2 ≤ x.2)))

/-- The sort order used on (eigenvalue, original column index) pairs. -/
def eigRel (a b : Cx × ℕ) : Prop := cLexGe a.1 b.1

instance : DecidableRel eigRel := fun a b => inferInstanceAs (Decidable (cLexGe a.1 b.1))

instance : IsTotal (Cx × ℕ) eigRel where
  total a b := by
    unfold eigRel cLexGe
    rcases lt_trichotomy a.1.1 b.1.1 with h | h | h
    · exact Or.inr (Or.inl h)
    · rcases le_total b.1.2 a.1.2 with h2 | h2
      · exact Or.inl (Or.inr ⟨h, h2⟩)
      · exact Or.inr (Or.inr ⟨h.symm, h2⟩)
    · exact Or.inl (Or.inl h)

instance : IsTrans (Cx × ℕ) eigRel where
  trans a b c hab hbc := by
    unfold eigRel cLexGe at *
    rcases hab with h1 | ⟨h1, h1'⟩ <;> rcases hbc with h2 | ⟨h2, h2'⟩
    · exact Or.inl (h2.trans h1)
    · exact Or.inl (lt_of_le_of_lt (le_of_eq h2.symm) h1)
    · exact Or.inl (lt_of_lt_of_le h2 (le_of_eq h1.symm))
    · exact Or.inr ⟨h1.trans h2, h2'.trans h1'⟩

/-- `var = eig_vecs.T · right · eig_vecs` (line 53). -/
def normVar (right V : Mat) : Mat := Mat.mul V.transpose (Mat.mul right V)

/-- `invvar = np.diag(np.reciprocal(np.sqrt(np.diag(var))))` (line 54),
with `np.sqrt` supplied as the oracle `sqrtO`. -/
def invvarOf (sqrtO : ℚ → ℚ) (var : Mat) : Mat :=
  let n := min var.rows var.cols
  ⟨n, n, fun p q => if p = q then (sqrtO (var.entry p p))⁻¹ else 0⟩

/-- Lines 53-55: rescale each eigenvector column by the reciprocal square
root of its `right`-induced squared norm. -/
def normalizeVecs (sqrtO : ℚ → ℚ) (right V : Mat) : Mat :=
  Mat.mul V (invvarOf sqrtO (normVar right V))

/-- `GCCA.solve_eigprob(left, right)` (lines 38-57).  `eigO` is the
`scipy.linalg.eig` oracle, `sqrtO` the `np.sqrt` oracle.  Sorting pairs
each eigenvalue with its original column index; truncation keeps the top
`eig_dim` pairs, and `.real` keeps the rational real parts. -/
def solve_eigprob (sqrtO : ℚ → ℚ) (eigO : Mat → Mat → List Cx × CMat)
    (left right : Mat) : List ℚ × Mat :=
  let ed := eig_dim left right
  let vals := (eigO left right).1
  let vecs := (eigO left right).2
  let kept := (List.insertionSort eigRel (vals.zip (List.range vals.length))).take ed
  let eig_vals := kept.map fun p => p.1.1
  let eig_vecs : Mat :=
    ⟨vecs.rows, min ed vals.length, fun p j => (vecs.entry p (kept.getD j ((0, 0), 0)).2).1⟩
  (eig_vals, normalizeVecs sqrtO right eig_vecs)

/-- Locate a flat row index inside a list of block sizes:
returns (block index, offset inside the block). -/
def locBlk : List ℕ → ℕ → ℕ × ℕ
  | [], p => (0, p)
  | f :: fs, p =>
    if p < f then (0, p)
    else ((locBlk fs (p - f)).1 + 1, (locBlk fs (p - f)).2)

/-- `np.vstack` of `np.hstack`s of equally-shaped block rows: the square
block matrix whose `(i,j)` block is `g i j`. -/
def assembleBlocks (g : ℕ → ℕ → Mat) (sizes : List ℕ) : Mat :=
  ⟨sizes.sum, sizes.sum, fun p q =>
    (g (locBlk sizes p).1 (locBlk sizes q).1).entry (locBlk sizes p).2 (locBlk sizes q).2⟩

/-- `left` (lines 104-109): off-diagonal blocks, zeros on the diagonal,
all scaled by 0.5. -/
def leftMat (cov : List (List Mat)) (sizes : List ℕ) : Mat :=
  Mat.smul (1 / 2)
    (assembleBlocks (fun i j => if i = j then Mat.zerosLike (getG cov i j) else getG cov i j)
      sizes)

/-- `right` (lines 110-115): diagonal blocks, zeros elsewhere. -/
def rightMat (cov : List (List Mat)) (sizes : List ℕ) : Mat :=
  assembleBlocks (fun i j => if i ≠ j then Mat.zerosLike (getG cov i j) else getG cov i j)
    sizes

/-- Total feature count `Σ features_k` of a list of data sets. -/
def totalFeatures (xl : List Mat) : ℕ := (xl.map Mat.cols).sum

/-- The `left` matrix `fit` hands to `solve_eigprob` for inputs `xs`. -/
def fitLeft (reg : ℚ) (xs : List Mat) : Mat :=
  leftMat (add_regularization_term reg (covGrid (xs.map normalize))) (xs.map Mat.cols)

/-- The `right` matrix `fit` hands to `solve_eigprob` for inputs `xs`. -/
def fitRight (reg : ℚ) (xs : List Mat) : Mat :=
  rightMat (add_regularization_term reg (covGrid (xs.map normalize))) (xs.map Mat.cols)

/-- `GCCA.fit` (lines 87-125).  Returns the model state when the method
ends (unchanged if an exception escapes) together with the outcome. -/
def fit (eigO : Mat → Mat → List Cx × CMat) (sqrtO : ℚ → ℚ)
    (m : Model) (x_list : List Mat) : Model × Except PyErr Unit :=
  let data_num := x_list.length
  let x_norm_list := x_list.map normalize
  match calc_cov_mat x_norm_list with
  | .error e => (m, .error e)
  | .ok cov0 =>
    let cov_mat := add_regularization_term m.reg_param cov0
    let sizes := x_list.map Mat.cols
    let left := leftMat cov_mat sizes
    let right := rightMat cov_mat sizes
    let sol := solve_eigprob sqrtO eigO left right
    ({ m with
        data_num := data_num
        cov_mat := cov_mat.map (List.map CovEntry.arr)
        h_list := (List.range data_num).map fun i =>
          rowSlice sol.2 (dOff x_list i) (dOff x_list (i + 1))
        eigvals := sol.1 }, .ok ())

/-- `GCCA.transform` (lines 127-146). -/
def transform (m : Model) (x_list : List Mat) : Model × Except PyErr (List Mat) :=
  if m.data_num ≠ x_list.length then
    (m, .error (.raised "data num when fitting is different from data num to be transformed"))
  else
    let z_list := List.zipWith Mat.mul (x_list.map normalize) m.h_list
    ({ m with z_list := z_list }, .ok z_list)

/-- A Python value passed through a `*x_list` vararg: an ndarray, or a
tuple of further values (which is what `fit_transform` actually passes). -/
inductive PyVal where
  | arr (A : Mat)
  | tup (vs : List PyVal)

/-- Evaluating `x.shape` (lines 92-93 / 132-133): an `AttributeError`
for a tuple, fine for an ndarray. -/
def shapeErr : PyVal → Option PyErr
  | .arr _ => none
  | .tup _ => some (.attributeError "tuple object has no attribute shape")

/-- First error raised by the shape-logging loop over the arguments. -/
def firstErr : List PyVal → Option PyErr
  | [] => none
  | v :: vs => match shapeErr v with
    | some e => some e
    | none => firstErr vs

/-- Coercion used after the loop has certified every argument is an array. -/
def asMat : PyVal → Mat
  | .arr A => A
  | .tup _ => M0

/-- `GCCA.fit` on raw argument values: the logging loop at lines 92-93
evaluates `x.shape` on every argument before anything else, so a tuple
argument raises before any state change. -/
def fitD (eigO : Mat → Mat → List Cx × CMat) (sqrtO : ℚ → ℚ)
    (m : Model) (vs : List PyVal) : Model × Except PyErr Unit :=
  match firstErr vs with
  | some e => (m, .error e)
  | none => fit eigO sqrtO m (vs.map asMat)

/-- `GCCA.transform` on raw argument values (lines 130-133 likewise
inspect `x.shape` before the count check). -/
def transformD (m : Model) (vs : List PyVal) : Model × Except PyErr (List Mat) :=
  match firstErr vs with
  | some e => (m, .error e)
  | none => transform m (vs.map asMat)

/-- `GCCA.fit_transform` (lines 148-150): both calls receive the single
tuple `x_list` as their one positional argument, not the unpacked data
sets. -/
def fit_transform (eigO : Mat → Mat → List Cx × CMat) (sqrtO : ℚ → ℚ)
    (m : Model) (x_list : List PyVal) : Model × Except PyErr Unit :=
  let r1 := fitD eigO sqrtO m [PyVal.tup x_list]
  match r1.2 with
  | .error e => (r1.1, .error e)
  | .ok _ =>
    let r2 := transformD r1.1 [PyVal.tup x_list]
    (r2.1, r2.2.map fun _ => ())

/-- The contents of the HDF5 file written by `save_params`
(lines 158-181): scalar datasets, the `cov_mat` and `h_list` groups, the
`eig_vals` dataset, and the `z_list` group that exists only when the
in-memory `z_list` was nonempty. -/
structure H5File where
  n_components : ℕ
  reg_param : ℚ
  data_num : ℕ
  cov : List (List Mat)
  h : List Mat
  eig_vals : List ℚ
  z : Option (List Mat)

/-- A `cov_mat` slot as an ndarray, for serialization. -/
def covEntryMat : CovEntry → Mat
  | .arr A => A
  | .closedH5 _ => M0

/-- Whether a `cov_mat` slot holds a real ndarray. -/
def isArr : CovEntry → Bool
  | .arr _ => true
  | .closedH5 _ => false

/-- `GCCA.save_params` (lines 158-181).  Serializing a closed h5py
handle (the state `load_params` leaves behind) would itself error. -/
def save_params (m : Model) : Except PyErr H5File :=
  if m.cov_mat.all (fun row => row.all isArr) then
    .ok { n_components := m.n_components
          reg_param := m.reg_param
          data_num := m.data_num
          cov := m.cov_mat.map (List.map covEntryMat)
          h := m.h_list
          eig_vals := m.eigvals
          z := if m.z_list.length ≠ 0 then some m.z_list else none }
  else .error (.h5Error "cannot serialize a closed dataset handle")

/-- `GCCA.load_params` (lines 183-203).  Two slips of the source are kept
faithfully: `cov_mat` slots receive the (soon closed) `Dataset` handles
`f["cov_mat/i_j"]`, not `.value` arrays, and line 197 assigns the loaded
eigenvalues to the new attribute `eig_vals`, leaving `self.eigvals`
untouched. -/
def load_params (m : Model) (f : H5File) : Model :=
  { n_components := f.n_components
    reg_param := f.reg_param
    data_num := f.data_num
    cov_mat := (List.range f.data_num).map fun i =>
      (List.range f.data_num).map fun j =>
        CovEntry.closedH5 (toString i ++ "_" ++ toString j)
    h_list := (List.range f.data_num).map fun i => f.h.getD i M0
    eigvals := m.eigvals
    eig_vals_attr := some f.eig_vals
    z_list := match f.z with
      | some zf => (List.range f.data_num).map fun i => zf.getD i M0
      | none => m.z_list }

/-! Concrete data used by witnesses and counterexamples. -/

/-- A 1×1 data set. -/
def M1 : Mat := ⟨1, 1, fun _ _ => 2⟩

/-- A data set with 2 samples and 1 feature. -/
def A2 : Mat := ⟨2, 1, fun _ _ => 1⟩

/-- A data set with 3 samples and 1 feature. -/
def B3 : Mat := ⟨3, 1, fun _ _ => 1⟩

/-- A model in the state `fit` would leave after a 1-data-set fit. -/
def mFit : Model :=
  { n_components := 2
    reg_param := 1 / 10
    data_num := 1
    cov_mat := [[.arr M1]]
    h_list := [M1]
    eigvals := [1]
    z_list := []
    eig_vals_attr := none }

/-- The file `save_params` writes for `mFit`. -/
def fileC : H5File :=
  { n_components := 2
    reg_param := 1 / 10
    data_num := 1
    cov := [[M1]]
    h := [M1]
    eig_vals := [1]
    z := none }

/-- A trivial `scipy.linalg.eig` oracle that honours the contract of
returning one eigenvalue per row of its first argument. -/
def eigO0 : Mat → Mat → List Cx × CMat :=
  fun A _ => (List.replicate A.rows ((0 : ℚ), (0 : ℚ)), ⟨A.rows, A.rows, fun _ _ => ((0 : ℚ), (0 : ℚ))⟩)

/-- A trivial `np.sqrt` oracle. -/
def sqrt0 : ℚ → ℚ := fun x => x

/-- A 1×1 all-ones matrix, used both as right matrix and eigenvectors. -/
def V1 : Mat := ⟨1, 1, fun _ _ => 1⟩

/-- An `np.sqrt` oracle that is exact on the one value it is used at. -/
def sqrt1 : ℚ → ℚ := fun _ => 1

/-! Helper lemmas about the embedding. -/

theorem sumTo_congr {n : ℕ} {f g : ℕ → ℚ} (h : ∀ k, k < n → f k = g k) :
    sumTo n f = sumTo n g := by
  induction n with
  | zero => rfl
  | succ n ih =>
    simp only [sumTo]
    rw [ih fun k hk => h k (Nat.lt_succ_of_lt hk), h n (Nat.lt_succ_self n)]

theorem sumTo_mul_left (c : ℚ) (f : ℕ → ℚ) (n : ℕ) :
    sumTo n (fun k => c * f k) = c * sumTo n f := by
  induction n with
  | zero => simp [sumTo]
  | succ n ih => simp only [sumTo, ih]; ring

theorem sumTo_mul_right (c : ℚ) (f : ℕ → ℚ) (n : ℕ) :
    sumTo n (fun k => f k * c) = sumTo n f * c := by
  induction n with
  | zero => simp [sumTo]
  | succ n ih => simp only [sumTo, ih]; ring

theorem sumTo_ite (n l : ℕ) (f : ℕ → ℚ) :
    sumTo n (fun k => if k = l then f k else 0) = if l < n then f l else 0 := by
  induction n with
  | zero => simp [sumTo]
  | succ n ih =>
    simp only [sumTo, ih]
    rcases lt_trichotomy l n with h | h | h
    · rw [if_pos h, if_pos (Nat.lt_succ_of_lt h), if_neg (by omega), add_zero]
    · subst h
      rw [if_neg (lt_irrefl l), if_pos rfl, if_pos (Nat.lt_succ_self l), zero_add]
    · rw [if_neg (by omega), if_neg (by omega), if_neg (by omega), add_zero]

theorem mapRange_getD {α : Type} (f : ℕ → α) (d : α) {i n : ℕ} (h : i < n) :
    ((List.range n).map f).getD i d = f i := by
  simp [List.getElem?_map, List.getElem?_range h]

theorem getD_range_self {α : Type} (l : List α) (d : α) :
    (List.range l.length).map (fun i => l.getD i d) = l := by
  apply List.ext_getElem
  · simp
  · intro n h1 h2
    simp [List.getElem?_eq_getElem h2]

theorem extMat {A B : Mat} (h1 : A.rows = B.rows) (h2 : A.cols = B.cols)
    (h3 : ∀ p q, A.entry p q = B.entry p q) : A = B := by
  cases A; cases B
  simp only [Mat.mk.injEq]
  exact ⟨h1, h2, funext fun p => funext fun q => h3 p q⟩

theorem getG_add_regularization (reg : ℚ) (g : List (List Mat)) {i j : ℕ}
    (hi : i < g.length) (hj : j < (g.getD i []).length) :
    getG (add_regularization_term reg g) i j =
      if j = i then regularizeBlock reg (getG g i i) else getG g i j := by
  unfold add_regularization_term getG
  rw [mapRange_getD _ _ hi, mapRange_getD _ _ hj]

theorem rankAux_le_aux : ∀ (n : ℕ) (m : List (List ℚ)), m.length ≤ n → rankAux m ≤ m.length := by
  intro n
  induction n with
  | zero =>
    intro m hm
    have hnil : m = [] := List.eq_nil_of_length_eq_zero (by omega)
    subst hnil
    simp [rankAux]
  | succ n ih =>
    intro m hm
    cases m with
    | nil => simp [rankAux]
    | cons r rs =>
      have h1 : rs.length ≤ n := by simpa using hm
      cases hfind : r.findIdx? (fun x => x != 0) with
      | none =>
        have hstep : rankAux (r :: rs) = rankAux rs := by
          rw [rankAux, hfind]
        rw [hstep]
        exact le_trans (ih rs h1) (by simp)
      | some c =>
        have hstep : rankAux (r :: rs) = rankAux (rs.map (elimRow r c)) + 1 := by
          rw [rankAux, hfind]
        rw [hstep]
        have h2 : (rs.map (elimRow r c)).length ≤ n := by simpa using h1
        have h3 := ih (rs.map (elimRow r c)) h2
        simp only [List.length_map] at h3
        simp only [List.length_cons]
        omega

/-- Gaussian rank is at most the row count. -/
theorem rankAux_le (m : List (List ℚ)) : rankAux m ≤ m.length :=
  rankAux_le_aux m.length m le_rfl

/-- `matrix_rank` is bounded by the row dimension. -/
theorem qrank_le_rows (A : Mat) : qrank A ≤ A.rows := by
  have h := rankAux_le ((List.range A.rows).map fun i => (List.range A.cols).map fun j => A.entry i j)
  simpa [qrank] using h

/-- Descending lexicographic order implies descending real parts. -/
theorem eigRel_imp_ge {a b : Cx × ℕ} (h : eigRel a b) : b.1.1 ≤ a.1.1 := by
  rcases h with h | ⟨h, _⟩
  · exact le_of_lt h
  · exact le_of_eq h.symm

/-- The eigenvalue list `solve_eigprob` returns is sorted non-increasing. -/
theorem solve_eigprob_sorted (sqrtO : ℚ → ℚ) (eigO : Mat → Mat → List Cx × CMat)
    (left right : Mat) :
    List.Sorted (fun a b : ℚ => b ≤ a) ((solve_eigprob sqrtO eigO left right).1) := by
  unfold solve_eigprob
  dsimp only
  have hs : List.Sorted eigRel
      (List.insertionSort eigRel
        (((eigO left right).1).zip (List.range ((eigO left right).1).length))) :=
    List.sorted_insertionSort eigRel _
  have ht : List.Sorted eigRel
      ((List.insertionSort eigRel
        (((eigO left right).1).zip (List.range ((eigO left right).1).length))).take
          (eig_dim left right)) :=
    List.Pairwise.sublist (List.take_sublist _ _) hs
  exact List.Pairwise.map _ (fun a b h => eigRel_imp_ge h) ht

/-- The eigenvalue list `solve_eigprob` returns has length `eig_dim`
whenever the eig oracle returned one eigenvalue per row. -/
theorem solve_eigprob_length (sqrtO : ℚ → ℚ) (eigO : Mat → Mat → List Cx × CMat)
    (left right : Mat) (h : ((eigO left right).1).length = left.rows) :
    ((solve_eigprob sqrtO eigO left right).1).length = eig_dim left right := by
  unfold solve_eigprob
  dsimp only
  have hed : eig_dim left right ≤ left.rows :=
    le_trans (min_le_left _ _) (qrank_le_rows left)
  simp [List.length_take, List.length_zip, h]
  omega

theorem stackT_rows (xl : List Mat) : (stackT xl).rows = (xl.map Mat.cols).sum := by
  induction xl with
  | nil => rfl
  | cons x rest ih => simp [stackT, ih]

theorem covOf_symm (z : Mat) (p q : ℕ) : (covOf z).entry p q = (covOf z).entry q p := by
  dsimp only [covOf]
  rw [sumTo_congr (g := fun t =>
    (z.entry q t - sumTo z.cols (z.entry q) / (z.cols : ℚ)) *
      (z.entry p t - sumTo z.cols (z.entry p) / (z.cols : ℚ)))
    (fun t _ => mul_comm _ _)]

theorem sum_take_le_sum_take (l : List ℕ) : ∀ {i j : ℕ}, i ≤ j →
    (l.take i).sum ≤ (l.take j).sum := by
  induction l with
  | nil => intro i j _; simp
  | cons a l ih =>
    intro i j h
    cases i with
    | zero => simp
    | succ i =>
      cases j with
      | zero => omega
      | succ j => simpa using ih (Nat.succ_le_succ_iff.mp h)

theorem dOff_mono (xl : List Mat) {i j : ℕ} (h : i ≤ j) : dOff xl i ≤ dOff xl j := by
  unfold dOff
  rw [List.map_take, List.map_take]
  exact sum_take_le_sum_take _ h

theorem dOff_length (xl : List Mat) : dOff xl xl.length = (xl.map Mat.cols).sum := by
  unfold dOff
  rw [List.take_length]

theorem dOff_succ (xl : List Mat) : ∀ {i : ℕ}, i < xl.length →
    dOff xl (i + 1) = dOff xl i + (xl.getD i M0).cols := by
  induction xl with
  | nil => intro i h; simp at h
  | cons x rest ih =>
    intro i h
    cases i with
    | zero => simp [dOff]
    | succ i =>
      have h2 : i < rest.length := by simpa using h
      have := ih h2
      simp only [dOff, List.take_succ_cons, List.map_cons, List.sum_cons, List.getD_cons_succ]
      simp only [dOff] at this
      omega

theorem getG_covGrid (xl : List Mat) {i j : ℕ} (hi : i < xl.length) (hj : j < xl.length) :
    getG (covGrid xl) i j =
      sliceM (covOf (stackT xl)) (dOff xl i) (dOff xl (i + 1)) (dOff xl j) (dOff xl (j + 1)) := by
  unfold covGrid getG
  dsimp only
  rw [mapRange_getD _ _ hi, mapRange_getD _ _ hj]

/-- The diagonal blocks of `covGrid` are square with side `features_i`. -/
theorem getG_covGrid_diag_rows (xl : List Mat) {i : ℕ} (hi : i < xl.length) :
    (getG (covGrid xl) i i).rows = (xl.getD i M0).cols ∧
      (getG (covGrid xl) i i).cols = (xl.getD i M0).cols := by
  rw [getG_covGrid xl hi hi]
  have hcr : (covOf (stackT xl)).rows = dOff xl xl.length := by
    rw [dOff_length]
    exact stackT_rows xl
  have hle : dOff xl (i + 1) ≤ (covOf (stackT xl)).rows := by
    rw [hcr]
    exact dOff_mono xl hi
  have hmin : min (dOff xl (i + 1)) (covOf (stackT xl)).rows = dOff xl (i + 1) :=
    Nat.min_eq_left hle
  constructor
  · show min (dOff xl (i + 1)) (covOf (stackT xl)).rows - dOff xl i = _
    rw [hmin, dOff_succ xl hi]
    omega
  · show min (dOff xl (i + 1)) (covOf (stackT xl)).rows - dOff xl i = _
    rw [hmin, dOff_succ xl hi]
    omega

/-- `normVar` expanded: `(Vᵀ·B·V)[j,j]`. -/
theorem normVar_entry (B V : Mat) (j : ℕ) :
    (normVar B V).entry j j =
      sumTo V.rows (fun p =>
        V.entry p j * sumTo B.cols (fun q => B.entry p q * V.entry q j)) := rfl

/-- The normalization (line 55) rescales each in-range column by the
reciprocal square root of its diagonal `var` entry. -/
theorem normalizeVecs_entry (sqrtO : ℚ → ℚ) (right V : Mat) {j : ℕ}
    (hj : j < V.cols) (q : ℕ) :
    (normalizeVecs sqrtO right V).entry q j =
      V.entry q j * (sqrtO ((normVar right V).entry j j))⁻¹ := by
  show sumTo V.cols (fun k => V.entry q k *
      (if k = j then (sqrtO ((normVar right V).entry k k))⁻¹ else 0)) = _
  have step : ∀ k, k < V.cols →
      V.entry q k * (if k = j then (sqrtO ((normVar right V).entry k k))⁻¹ else 0) =
        (if k = j then V.entry q k * (sqrtO ((normVar right V).entry k k))⁻¹ else 0) := by
    intro k _
    split_ifs <;> ring
  rw [sumTo_congr step,
    sumTo_ite V.cols j (fun k => V.entry q k * (sqrtO ((normVar right V).entry k k))⁻¹),
    if_pos hj]

/-! Claim theorems. -/

/-- C3: calling `transform` with a number of data sets different from the
fitted `data_num` raises the descriptive count-mismatch `Exception`
(line 136) and leaves every stored field of the model (`h_list`,
`z_list`, `cov_mat`, `eigvals`, `data_num`) unchanged: the returned state
is the input model itself. -/
theorem transform_count_mismatch_preserves_state (m : Model) (x_list : List Mat)
    (h : x_list.length ≠ m.data_num) :
    transform m x_list =
      (m, .error (.raised "data num when fitting is different from data num to be transformed")) := by
  unfold transform
  rw [if_pos (Ne.symm h)]

/-- Witness for C3: a model fitted on one data set, transformed with none. -/
theorem transform_count_mismatch_witness :
    transform mFit [] =
      (mFit, .error (.raised "data num when fitting is different from data num to be transformed")) :=
  transform_count_mismatch_preserves_state mFit [] (by decide)

/-- C10: on a freshly constructed model (`data_num = 0` from `__init__`),
`transform` with any positive number of data sets raises the
count-mismatch error and changes nothing. -/
theorem fresh_model_transform_raises (n : ℕ) (r : ℚ) (x_list : List Mat)
    (h : 0 < x_list.length) :
    transform (mkModel n r) x_list =
      (mkModel n r,
        .error (.raised "data num when fitting is different from data num to be transformed")) := by
  unfold transform
  rw [if_pos (show (mkModel n r).data_num ≠ x_list.length from h.ne)]

/-- Witness for C10 at one concrete data set. -/
theorem fresh_model_transform_raises_witness :
    transform (mkModel 2 (1 / 10)) [M0] =
      (mkModel 2 (1 / 10),
        .error (.raised "data num when fitting is different from data num to be transformed")) :=
  fresh_model_transform_raises 2 (1 / 10) [M0] (by decide)

/-- C5 (counterexample): after `fit_transform` on two data sets the stored
`data_num` is NOT `1`: the nested tuple makes the very first statement of
`fit` (the `x.shape` logging access, line 93) raise an `AttributeError`,
so `data_num` keeps its prior value `0`. -/
theorem fit_transform_data_num_not_one_cex :
    (fit_transform eigO0 sqrt0 (mkModel 2 (1 / 10)) [.arr M1, .arr M1]).1.data_num ≠ 1 := by
  have h0 : (fit_transform eigO0 sqrt0 (mkModel 2 (1 / 10)) [.arr M1, .arr M1]).1.data_num = 0 := rfl
  rw [h0]
  decide

/-- C5 (amended): `fit_transform` does pass the argument tuple as a single
positional argument to `fit`, but the call then raises an
`AttributeError` when `fit` reads `x.shape` off the tuple, before
`data_num` is ever assigned; the model is returned unchanged, with
`data_num` still at its prior value (0 on a fresh model), never 1. -/
theorem fit_transform_tuple_attribute_error (eigO : Mat → Mat → List Cx × CMat)
    (sqrtO : ℚ → ℚ) (m : Model) (x_list : List PyVal) :
    fit_transform eigO sqrtO m x_list =
      (m, .error (.attributeError "tuple object has no attribute shape")) := rfl

/-- C4 (counterexample): `fit` on sample counts 2 and 3 does not raise any
validation `Exception` of its own (`PyErr.raised`); the failure is the
`ValueError` numpy raises inside `np.vstack` during `calc_cov_mat`. -/
theorem fit_shape_mismatch_not_validated_cex :
    (fit eigO0 sqrt0 (mkModel 2 (1 / 10)) [A2, B3]).2 =
      .error (.numpyValueError
        "all the input array dimensions except for the concatenation axis must match exactly") ∧
    ¬ ∃ msg, (fit eigO0 sqrt0 (mkModel 2 (1 / 10)) [A2, B3]).2 = .error (.raised msg) := by
  refine ⟨rfl, ?_⟩
  rintro ⟨msg, h⟩
  rw [show (fit eigO0 sqrt0 (mkModel 2 (1 / 10)) [A2, B3]).2 =
      Except.error (PyErr.numpyValueError
        "all the input array dimensions except for the concatenation axis must match exactly")
    from rfl] at h
  simp at h

/-- C4 (amended): `fit` performs no explicit sample-count validation; for
data sets with unequal sample counts the call fails with the numpy
dimension-mismatch `ValueError` raised by `np.vstack` inside
`calc_cov_mat`, and the model state is unchanged. -/
theorem fit_shape_mismatch_surfaces_in_vstack (eigO : Mat → Mat → List Cx × CMat)
    (sqrtO : ℚ → ℚ) (m : Model) (x : Mat) (rest : List Mat)
    (h : samplesAligned (x :: rest) = false) :
    fit eigO sqrtO m (x :: rest) =
      (m, .error (.numpyValueError
        "all the input array dimensions except for the concatenation axis must match exactly")) := by
  have hcc : calc_cov_mat ((x :: rest).map normalize) =
      .error (.numpyValueError
        "all the input array dimensions except for the concatenation axis must match exactly") := by
    simp only [List.map_cons, calc_cov_mat, List.all_map]
    simp only [samplesAligned] at h
    rw [show ((fun y => y.rows == (normalize x).rows) ∘ normalize) =
        fun y => y.rows == x.rows from rfl, h]
    rfl
  unfold fit
  dsimp only
  rw [hcc]

/-- Witness for C4 (amended) at sample counts 2 and 3. -/
theorem fit_shape_mismatch_surfaces_in_vstack_witness :
    fit eigO0 sqrt0 (mkModel 2 (1 / 10)) (A2 :: [B3]) =
      (mkModel 2 (1 / 10), .error (.numpyValueError
        "all the input array dimensions except for the concatenation axis must match exactly")) :=
  fit_shape_mismatch_surfaces_in_vstack eigO0 sqrt0 (mkModel 2 (1 / 10)) A2 [B3] (by decide)

/-- C7: `add_regularization_term` leaves every off-diagonal block exactly
unchanged, keeps each diagonal block's shape, and adds
`reg * mean(diag(block(i,i)))` times the identity to the diagonal
block's entries. -/
theorem add_regularization_frame (reg : ℚ) (g : List (List Mat)) (i j : ℕ)
    (hi : i < g.length) (hii : i < (g.getD i []).length) (hj : j < (g.getD i []).length) :
    (i ≠ j → getG (add_regularization_term reg g) i j = getG g i j) ∧
    (getG (add_regularization_term reg g) i i).rows = (getG g i i).rows ∧
    (getG (add_regularization_term reg g) i i).cols = (getG g i i).cols ∧
    ∀ p q, (getG (add_regularization_term reg g) i i).entry p q =
      (getG g i i).entry p q + (if p = q then reg * avgDiag (getG g i i) else 0) := by
  refine ⟨fun hne => ?_, ?_, ?_, fun p q => ?_⟩
  · rw [getG_add_regularization reg g hi hj, if_neg (Ne.symm hne)]
  · rw [getG_add_regularization reg g hi hii, if_pos rfl]; rfl
  · rw [getG_add_regularization reg g hi hii, if_pos rfl]; rfl
  · rw [getG_add_regularization reg g hi hii, if_pos rfl]
    unfold regularizeBlock Mat.add Mat.smul eyeM
    dsimp only
    split_ifs with hpq <;> ring

/-- Witness for C7 on a concrete 2×2 grid of 1×1 blocks. -/
theorem add_regularization_frame_witness :
    ((0 : ℕ) ≠ 1 →
      getG (add_regularization_term (1 / 10) [[M1, M1], [M1, M1]]) 0 1 =
        getG [[M1, M1], [M1, M1]] 0 1) ∧
    (getG (add_regularization_term (1 / 10) [[M1, M1], [M1, M1]]) 0 0).rows =
      (getG [[M1, M1], [M1, M1]] 0 0).rows ∧
    (getG (add_regularization_term (1 / 10) [[M1, M1], [M1, M1]]) 0 0).cols =
      (getG [[M1, M1], [M1, M1]] 0 0).cols ∧
    ∀ p q, (getG (add_regularization_term (1 / 10) [[M1, M1], [M1, M1]]) 0 0).entry p q =
      (getG [[M1, M1], [M1, M1]] 0 0).entry p q +
        (if p = q then (1 / 10) * avgDiag (getG [[M1, M1], [M1, M1]] 0 0) else 0) :=
  add_regularization_frame (1 / 10) [[M1, M1], [M1, M1]] 0 1 (by decide) (by decide) (by decide)

/-- C2: under the precondition that the diagonal of `Vᵀ·B·V` is strictly
positive (and that `np.sqrt` really returns square roots there), the
normalization step of `solve_eigprob` rescales each retained eigenvector
column `v` so that `vᵀ·B·v = 1`, where `B` is the right matrix. -/
theorem normalizeVecs_unit_norm (sqrtO : ℚ → ℚ) (right V : Mat) (j : ℕ)
    (hj : j < V.cols)
    (hpos : ∀ k, k < V.cols → 0 < (normVar right V).entry k k)
    (hsq : ∀ k, k < V.cols →
      sqrtO ((normVar right V).entry k k) * sqrtO ((normVar right V).entry k k) =
        (normVar right V).entry k k) :
    (normVar right (normalizeVecs sqrtO right V)).entry j j = 1 := by
  set W := normalizeVecs sqrtO right V with hWdef
  set s := sqrtO ((normVar right V).entry j j) with hsdef
  have hW : ∀ q, W.entry q j = V.entry q j * s⁻¹ := fun q => normalizeVecs_entry sqrtO right V hj q
  have hvar := hpos j hj
  have hs : s * s = (normVar right V).entry j j := hsq j hj
  have hs0 : s ≠ 0 := by
    intro h0
    rw [h0, zero_mul] at hs
    exact hvar.ne' hs.symm
  have hrows : W.rows = V.rows := rfl
  have key : (normVar right W).entry j j = (s⁻¹ * s⁻¹) * (normVar right V).entry j j := by
    rw [normVar_entry right W j, normVar_entry right V j, hrows,
      ← sumTo_mul_left (s⁻¹ * s⁻¹)]
    apply sumTo_congr
    intro p _
    rw [hW p]
    have hinner : sumTo right.cols (fun q => right.entry p q * W.entry q j) =
        (sumTo right.cols fun q => right.entry p q * V.entry q j) * s⁻¹ := by
      rw [← sumTo_mul_right]
      apply sumTo_congr
      intro q _
      rw [hW q]
      ring
    rw [hinner]
    ring
  rw [key, ← hs]
  field_simp

/-- Witness for C2 on 1×1 matrices where `var = [[1]]`. -/
theorem normalizeVecs_unit_norm_witness :
    (normVar V1 (normalizeVecs sqrt1 V1 V1)).entry 0 0 = 1 :=
  normalizeVecs_unit_norm sqrt1 V1 V1 0 (by decide)
    (by
      intro k hk
      simp only [V1] at hk
      have hk0 : k = 0 := by omega
      subst hk0
      simp [normVar, Mat.mul, Mat.transpose, sumTo, V1])
    (by
      intro k hk
      simp only [V1] at hk
      have hk0 : k = 0 := by omega
      subst hk0
      simp [sqrt1, normVar, Mat.mul, Mat.transpose, sumTo, V1])

/-- C6: for normalized data sets with equal sample count, `calc_cov_mat`
succeeds and the grid it builds is `N×N`, every diagonal block is square
of side `features_i`, and `block(i,j) = block(j,i)ᵀ`. -/
theorem covGrid_block_structure (xl : List Mat) (i j : ℕ)
    (hs : samplesAligned xl = true) (hi : i < xl.length) (hj : j < xl.length) :
    calc_cov_mat xl = .ok (covGrid xl) ∧
    (covGrid xl).length = xl.length ∧
    (∀ row ∈ covGrid xl, row.length = xl.length) ∧
    (getG (covGrid xl) i i).rows = (xl.getD i M0).cols ∧
    (getG (covGrid xl) i i).cols = (xl.getD i M0).cols ∧
    getG (covGrid xl) i j = (getG (covGrid xl) j i).transpose := by
  refine ⟨?_, ?_, ?_, (getG_covGrid_diag_rows xl hi).1, (getG_covGrid_diag_rows xl hi).2, ?_⟩
  · cases xl with
    | nil => simp [samplesAligned] at hs
    | cons x rest =>
      simp only [calc_cov_mat]
      simp only [samplesAligned] at hs
      rw [if_pos hs]
  · simp [covGrid]
  · intro row hrow
    simp only [covGrid, List.mem_map] at hrow
    obtain ⟨a, ha, rfl⟩ := hrow
    simp
  · rw [getG_covGrid xl hi hj, getG_covGrid xl hj hi]
    apply extMat
    · rfl
    · rfl
    · intro p q
      exact covOf_symm (stackT xl) (dOff xl i + p) (dOff xl j + q)

/-- Witness for C6 on two aligned data sets of 2 samples each. -/
theorem covGrid_block_structure_witness :
    calc_cov_mat [A2, A2] = .ok (covGrid [A2, A2]) ∧
    (covGrid [A2, A2]).length = [A2, A2].length ∧
    (∀ row ∈ covGrid [A2, A2], row.length = [A2, A2].length) ∧
    (getG (covGrid [A2, A2]) 0 0).rows = ([A2, A2].getD 0 M0).cols ∧
    (getG (covGrid [A2, A2]) 0 0).cols = ([A2, A2].getD 0 M0).cols ∧
    getG (covGrid [A2, A2]) 0 1 = (getG (covGrid [A2, A2]) 1 0).transpose :=
  covGrid_block_structure [A2, A2] 0 1 (by decide) (by decide) (by decide)

/-- C8 (bug demonstration): saving the fitted model `mFit` (which has
`eigvals = [1]` and one real covariance block) and loading the file into
a fresh model restores `n_components`, `reg_param`, `data_num` and
`h_list`, and leaves the projected-results list empty as the claim says;
but the loaded model's `eigvals` field is still the fresh `[]` (line 197
assigns the new attribute `eig_vals` instead) and the covariance slot
holds the closed h5py dataset handle `cov_mat/0_0`, not an array. -/
theorem load_params_drops_eigvals_bug :
    save_params mFit = .ok fileC ∧
    (load_params (mkModel 2 (1 / 10)) fileC).n_components = mFit.n_components ∧
    (load_params (mkModel 2 (1 / 10)) fileC).reg_param = mFit.reg_param ∧
    (load_params (mkModel 2 (1 / 10)) fileC).data_num = mFit.data_num ∧
    (load_params (mkModel 2 (1 / 10)) fileC).h_list = mFit.h_list ∧
    (load_params (mkModel 2 (1 / 10)) fileC).z_list = [] ∧
    (load_params (mkModel 2 (1 / 10)) fileC).eigvals = [] ∧
    mFit.eigvals = [1] ∧
    (load_params (mkModel 2 (1 / 10)) fileC).eig_vals_attr = some [1] ∧
    ((load_params (mkModel 2 (1 / 10)) fileC).cov_mat.getD 0 []).getD 0 (.arr M0) =
      CovEntry.closedH5 "0_0" := by
  refine ⟨rfl, rfl, rfl, rfl, rfl, rfl, rfl, rfl, rfl, ?_⟩
  show CovEntry.closedH5 (toString 0 ++ "_" ++ toString 0) = CovEntry.closedH5 "0_0"
  rw [show toString 0 ++ "_" ++ toString 0 = "0_0" by decide]

/-- C9: saving a fitted model, loading the file into a fresh model and
transforming the same inputs gives exactly the projections the original
model's `transform` gives (`transform` only reads `data_num` and
`h_list`, both of which round-trip intact). -/
theorem save_load_transform_roundtrip (m0 m : Model) (f : H5File) (xs : List Mat)
    (hsave : save_params m = .ok f) (hlen : m.h_list.length = m.data_num) :
    (transform (load_params m0 f) xs).2 = (transform m xs).2 := by
  unfold save_params at hsave
  split at hsave
  case isFalse => exact Except.noConfusion hsave
  case isTrue hall =>
    injection hsave with hf
    subst hf
    have hd : (load_params m0
        { n_components := m.n_components
          reg_param := m.reg_param
          data_num := m.data_num
          cov := m.cov_mat.map (List.map covEntryMat)
          h := m.h_list
          eig_vals := m.eigvals
          z := if m.z_list.length ≠ 0 then some m.z_list else none }).data_num = m.data_num := rfl
    have hh : (load_params m0
        { n_components := m.n_components
          reg_param := m.reg_param
          data_num := m.data_num
          cov := m.cov_mat.map (List.map covEntryMat)
          h := m.h_list
          eig_vals := m.eigvals
          z := if m.z_list.length ≠ 0 then some m.z_list else none }).h_list = m.h_list := by
      show (List.range m.data_num).map (fun i => m.h_list.getD i M0) = m.h_list
      rw [← hlen]
      exact getD_range_self m.h_list M0
    unfold transform
    rw [hd, hh]
    split <;> rfl

/-- Witness for C9: the fitted model `mFit`, its file, and one data set. -/
theorem save_load_transform_roundtrip_witness :
    (transform (load_params (mkModel 2 (1 / 10)) fileC) [M1]).2 = (transform mFit [M1]).2 :=
  save_load_transform_roundtrip (mkModel 2 (1 / 10)) mFit fileC [M1] rfl rfl

/-- C1: for equal sample counts and `reg_param ≥ 0` (and an eig oracle
meeting scipy's contract of one eigenvalue per matrix row), `fit`
succeeds and stores eigenvalues that are real by construction (the `.real`
parts of line 48), sorted non-increasing, whose number equals
`eig_dim = min(rank(left), rank(right))`, itself at most the total
feature count. -/
theorem fit_eigvals_sorted_and_counted (eigO : Mat → Mat → List Cx × CMat)
    (sqrtO : ℚ → ℚ) (m : Model) (xs : List Mat)
    (hreg : 0 ≤ m.reg_param) (hsamp : samplesAligned xs = true)
    (heig : ∀ A B, ((eigO A B).1).length = A.rows) :
    (fit eigO sqrtO m xs).2 = .ok () ∧
    (fit eigO sqrtO m xs).1.eigvals.length =
      eig_dim (fitLeft m.reg_param xs) (fitRight m.reg_param xs) ∧
    eig_dim (fitLeft m.reg_param xs) (fitRight m.reg_param xs) ≤ totalFeatures xs ∧
    List.Sorted (fun a b : ℚ => b ≤ a) ((fit eigO sqrtO m xs).1.eigvals) := by
  cases xs with
  | nil => simp [samplesAligned] at hsamp
  | cons x rest =>
    have hcalc : calc_cov_mat ((x :: rest).map normalize) =
        .ok (covGrid ((x :: rest).map normalize)) := by
      simp only [List.map_cons, calc_cov_mat, List.all_map]
      simp only [samplesAligned] at hsamp
      rw [show ((fun y => y.rows == (normalize x).rows) ∘ normalize) =
          fun y => y.rows == x.rows from rfl, if_pos hsamp]
    have hfit2 : (fit eigO sqrtO m (x :: rest)).2 = .ok () := by
      unfold fit
      dsimp only
      rw [hcalc]
    have hfit1 : (fit eigO sqrtO m (x :: rest)).1.eigvals =
        (solve_eigprob sqrtO eigO (fitLeft m.reg_param (x :: rest))
          (fitRight m.reg_param (x :: rest))).1 := by
      unfold fit fitLeft fitRight
      dsimp only
      rw [hcalc]
    have hrowsL : (fitLeft m.reg_param (x :: rest)).rows = totalFeatures (x :: rest) := rfl
    refine ⟨hfit2, ?_, ?_, ?_⟩
    · rw [hfit1]
      exact solve_eigprob_length sqrtO eigO _ _
        (by rw [heig (fitLeft m.reg_param (x :: rest)) (fitRight m.reg_param (x :: rest))])
    · rw [← hrowsL]
      exact le_trans (min_le_left _ _) (qrank_le_rows _)
    · rw [hfit1]
      exact solve_eigprob_sorted sqrtO eigO _ _

/-- Witness for C1 on a single 1×1 data set with `reg_param = 0`. -/
theorem fit_eigvals_sorted_and_counted_witness :
    (fit eigO0 sqrt0 (mkModel 2 0) [V1]).2 = .ok () ∧
    (fit eigO0 sqrt0 (mkModel 2 0) [V1]).1.eigvals.length =
      eig_dim (fitLeft (mkModel 2 0).reg_param [V1]) (fitRight (mkModel 2 0).reg_param [V1]) ∧
    eig_dim (fitLeft (mkModel 2 0).reg_param [V1]) (fitRight (mkModel 2 0).reg_param [V1]) ≤
      totalFeatures [V1] ∧
    List.Sorted (fun a b : ℚ => b ≤ a) ((fit eigO0 sqrt0 (mkModel 2 0) [V1]).1.eigvals) :=
  fit_eigvals_sorted_and_counted eigO0 sqrt0 (mkModel 2 0) [V1] le_rfl rfl
    (fun A B => by simp [eigO0])

end GCCA
